import Mathlib

/-!
Verification development for the `mark` markup engine of the dj2/Archive
repository (src/mark/src/parser.rs, src/mark/src/tree.rs, src/mark/src/lib.rs).

Strings are embedded as `List Char`; Rust's byte-offset slicing of `&str`
always happens at char boundaries here, so a char-position model produces
the same slice contents.  Rust `char::is_whitespace` / regex `\s` are
modelled on their ASCII fragment (the only whitespace the grammar and all
claims exercise).  The parser's node arena is a `List Node`; arena walks
that recurse through child indices (`find_open_node`, `find_parent_list`,
`to_block`) take an explicit fuel argument, always instantiated with the
arena size, which bounds every chain in reachable arenas.  The single
reachable panicking site of the source (the out-of-bounds index in the
fenced-code indent-stripping loop) is modelled by `Option`/`Except`
results, with `PErr.panicked` for a panic.
-/

namespace MarkSpec

/-- Character-list strings, the model of Rust `&str` slices of one line. -/
abbrev LC := List Char

/-- Convert a Lean string literal to the `List Char` model. -/
def chars (s : String) : LC := s.toList

/-- Newline character. -/
def nl : Char := Char.ofNat 10

/-- Single-quote character (used by the renderer's attribute strings). -/
def sq : Char := Char.ofNat 39

/-- Backtick character. -/
def bt : Char := Char.ofNat 96

/-- ASCII fragment of Rust `char::is_whitespace` / regex `\s`. -/
def isWs (c : Char) : Bool :=
  c = ' ' || c = Char.ofNat 9 || c = nl || c = Char.ofNat 13 ||
  c = Char.ofNat 11 || c = Char.ofNat 12

/-- Rust `str::trim` on a line. -/
def trimL (l : LC) : LC :=
  ((l.dropWhile isWs).reverse.dropWhile isWs).reverse

/-- `line[a..b]` for char positions `a ≤ b` (Rust byte slicing at char
boundaries). -/
def sl (l : LC) (a b : Nat) : LC := (l.drop a).take (b - a)

/-- Does `s` contain `pat` as a contiguous subsequence (unanchored regex
match such as `-->` or `?>`)? -/
def hasSub (s pat : LC) : Bool :=
  if pat.isPrefixOf s then true
  else match s with
    | [] => false
    | _ :: r => hasSub r pat

/-- ASCII lower-casing of a line, for the `(?i)` case-insensitive matches. -/
def lowerL (l : LC) : LC := l.map Char.toLower

def isDigitCh (c : Char) : Bool := '0' ≤ c && c ≤ '9'

def isLowerCh (c : Char) : Bool := 'a' ≤ c && c ≤ 'z'

def isUpperCh (c : Char) : Bool := 'A' ≤ c && c ≤ 'Z'

/-- Decimal value of a digit list (Rust `str::parse::<u32>` on the 1–9 digit
marker body; never overflows u32 there). -/
def digitsVal (l : LC) : Nat :=
  l.foldl (fun acc c => acc * 10 + (c.toNat - 48)) 0

/-! ## tree.rs: `Marker`, and parser.rs: `MarkerClose`, `ListData`,
`parse_marker` -/

/-- tree.rs `Marker`. -/
inductive Marker where
  | bullet | dash | plus | upperAlpha | lowerAlpha | upperRoman | lowerRoman
  | numeric
  deriving DecidableEq, Repr

/-- parser.rs `MarkerClose`. -/
inductive MarkerClose where
  | none | dot | bracket
  deriving DecidableEq, Repr

/-- parser.rs `ListData`. -/
structure ListData where
  dist_to_marker : Nat
  dist_after_marker : Nat
  marker : Marker
  close : MarkerClose
  start_value : Nat
  deriving DecidableEq, Repr

/-- parser.rs `parse_marker`: classify a trimmed list-marker token into
(kind, closing punctuation, starting ordinal).  `chars.last()` in the source
runs on the iterator after `next()`, i.e. on the tail of the token. -/
def parse_marker (marker : LC) : Marker × MarkerClose × Nat :=
  let marker_close : MarkerClose :=
    match (marker.drop 1).getLast? with
    | some ')' => .bracket
    | some '.' => .dot
    | _ => .none
  match marker.head? with
  | some '*' => (.bullet, marker_close, 1)
  | some '-' => (.dash, marker_close, 1)
  | some '+' => (.plus, marker_close, 1)
  | some 'i' => (.lowerRoman, marker_close, 1)
  | some 'I' => (.upperRoman, marker_close, 1)
  | some x =>
    if isLowerCh x then (.lowerAlpha, marker_close, x.toNat - 'a'.toNat + 1)
    else if isUpperCh x then (.upperAlpha, marker_close, x.toNat - 'A'.toNat + 1)
    else
      -- numeric arm: parse `marker[0..len-1]`; the regex guarantees digits,
      -- the source keeps start 1 when parsing fails
      let body := marker.dropLast
      if body ≠ [] && body.all isDigitCh then (.numeric, marker_close, digitsVal body)
      else (.numeric, marker_close, 1)
  | none => (.numeric, marker_close, 1)

/-! ## parser.rs: `Kind`, `Node`, the arena -/

/-- parser.rs `Kind`. -/
inductive Kind where
  | blockquote
  | code (lang : Option LC)
  | doc
  | header (lvl : Nat)
  | list (d : ListData)
  | listElement
  | paragraph
  | thematicBreak
  | rawHtml
  | text (s : LC)
  | inlineEl (tag : LC)
  deriving DecidableEq, Repr

/-- parser.rs `Node`. -/
structure Node where
  kind : Kind
  isOpen : Bool
  blocks : List Nat
  deriving DecidableEq, Repr

instance : Inhabited Node := ⟨⟨.doc, false, []⟩⟩

/-- The node arena of `Parser` (`root` is always index 0). -/
abbrev PState := List Node

/-- Arena read (in-bounds in all reachable uses). -/
def getNode (st : PState) (i : Nat) : Node := st.getD i default

def setNode (st : PState) (i : Nat) (n : Node) : PState := st.set i n

/-- parser.rs `Node::is_closed_by`. -/
def is_closed_by (self : Node) (kind : Kind) : Bool :=
  match kind with
  | .inlineEl _ => false
  | .text _ => false
  | _ =>
    match self.kind with
    | .doc | .blockquote | .listElement | .rawHtml => false
    | .paragraph | .header _ => kind ≠ Kind.paragraph
    | _ => true

/-- parser.rs `Node::is_closed_by_hardbreak`. -/
def is_closed_by_hardbreak (self : Node) : Bool :=
  self.kind = Kind.paragraph

/-- parser.rs `Parser::close_node`. -/
def close_node (st : PState) (i : Nat) : PState :=
  setNode st i { getNode st i with isOpen := false }

/-- parser.rs `Parser::find_open_node`, fueled recursion through last
children (fuel = arena size suffices in every reachable arena). -/
def find_open_node_f : Nat → PState → Nat → Nat
  | 0, _, idx => idx
  | f + 1, st, idx =>
    match (getNode st idx).blocks.getLast? with
    | some i => if (getNode st i).isOpen then find_open_node_f f st i else idx
    | none => idx

/-- `find_open_node` from the root with adequate fuel. -/
def find_open_node (st : PState) : Nat := find_open_node_f st.length st 0

/-- parser.rs `Parser::get_open_parent_for` (the loop closes one node per
iteration; fuel = arena size + 1 suffices). -/
def get_open_parent_go : Nat → PState → Kind → PState × Nat
  | 0, st, _ => (st, find_open_node st)
  | f + 1, st, kind =>
    let i := find_open_node st
    if is_closed_by (getNode st i) kind then
      get_open_parent_go f (close_node st i) kind
    else (st, i)

def get_open_parent_for (st : PState) (kind : Kind) : PState × Nat :=
  get_open_parent_go (st.length + 1) st kind

/-- parser.rs `Parser::add_node_to_parent`. -/
def add_node_to_parent (st : PState) (parent : Nat) (kind : Kind) :
    PState × Nat :=
  let st1 := st ++ [Node.mk kind true []]
  let val := st1.length - 1
  (setNode st1 parent
    { getNode st1 parent with blocks := (getNode st1 parent).blocks ++ [val] },
   val)

/-- parser.rs `Parser::add_node`. -/
def add_node (st : PState) (kind : Kind) : PState × Nat :=
  let (st1, parent) := get_open_parent_for st kind
  add_node_to_parent st1 parent kind

/-- parser.rs `Parser::add_text_node`. -/
def add_text_node (st : PState) (txt : LC) : PState :=
  let (st1, idx) := add_node st (.text txt)
  close_node st1 idx

/-- The arena at the start of `Parser::parse`: one open Document node. -/
def initState : PState := [⟨.doc, true, []⟩]

/-! ## parser.rs: inline scanner -/

/-- parser.rs `is_inline_open` (only the chars of the neighbours are used by
the source, so the `usize` components are dropped). -/
def is_inline_open (ch : Char) (left right : Option Char) : Bool :=
  match left with
  | some lc =>
    if !isWs lc then false
    else
      match right with
      | some rc => if !isWs rc && rc ≠ ch then true else false
      | none => false
  | none =>
    match right with
    | some rc => if !isWs rc && rc ≠ ch then true else false
    | none => false

/-- parser.rs `is_inline_close`.  Note the source's final `true`: when the
left neighbour passes, the function returns `true` whether or not a right
neighbour exists and whatever it is. -/
def is_inline_close (ch : Char) (left right : Option Char) : Bool :=
  match left with
  | none => false
  | some lc =>
    if isWs lc || ch = lc then false
    else
      match right with
      | some rc => if isWs rc then true else true
      | none => true

/-- parser.rs punctuation set of the `\\` escape handler. -/
def escPunct : List Char :=
  ['#', '*', '!', '$', '%', Char.ofNat 39, '(', ')', '+', ',', '-', '.', '/',
   ':', ';', '=', '?', '@', '[', Char.ofNat 92, ']', '^', '_', bt,
   Char.ofNat 123, Char.ofNat 124, Char.ofNat 126, Char.ofNat 125]

/-- parser.rs `Parser::process_inline_char`: returns the updated arena when
the character is classified open or close, `none` when it is literal. -/
def process_inline_char (st : PState) (kind : Kind) (ch : Char) (line : LC)
    (prev next : Option Char) (start endPos : Nat) : Option PState :=
  if is_inline_open ch prev next then
    let st1 := add_text_node st (sl line start endPos)
    some (add_node st1 kind).1
  else if is_inline_close ch prev next then
    let st1 := add_text_node st (sl line start endPos)
    some (close_node st1 (find_open_node st1))
  else none

/-- The loop of parser.rs `Parser::parse_inlines` over `char_indices`.  The
list argument is the not-yet-scanned suffix `line.drop idx` (standing in
for the source's `while idx < count`); the character under scrutiny is its
head, the lookahead its second element.  The `Nat` fuel argument only
drives the structural recursion: every iteration consumes at least one
character, so the initial fuel `line.length + 1` is never exhausted. -/
def parse_inlines_go (line : LC) : Nat → LC → PState → Nat → Nat → PState
  | 0, _, st, startIdx, idx =>
    if idx > startIdx then add_text_node st (line.drop startIdx) else st
  | _ + 1, [], st, startIdx, idx =>
    if idx > startIdx then add_text_node st (line.drop startIdx) else st
  | f + 1, ch :: rest, st, startIdx, idx =>
    let prev : Option Char := if idx > 0 then line.get? (idx - 1) else none
    let next : Option Char := rest.head?
    if ch = '_' then
      match process_inline_char st (.inlineEl (chars "em")) ch line prev next
          startIdx idx with
      | some st1 => parse_inlines_go line f rest st1 (idx + 1) (idx + 1)
      | none => parse_inlines_go line f rest st startIdx (idx + 1)
    else if ch = '*' then
      match process_inline_char st (.inlineEl (chars "strong")) ch line prev
          next startIdx idx with
      | some st1 => parse_inlines_go line f rest st1 (idx + 1) (idx + 1)
      | none => parse_inlines_go line f rest st startIdx (idx + 1)
    else if ch = bt then
      match process_inline_char st (.inlineEl (chars "code")) ch line prev
          next startIdx idx with
      | some st1 => parse_inlines_go line f rest st1 (idx + 1) (idx + 1)
      | none => parse_inlines_go line f rest st startIdx (idx + 1)
    else if ch = Char.ofNat 92 then
      match rest with
      | nxt :: rest2 =>
        if escPunct.contains nxt then
          let st1 := add_text_node st (sl line startIdx idx)
          parse_inlines_go line f rest2 st1 (idx + 1) (idx + 2)
        else if nxt = Char.ofNat 34 then
          let st1 := add_text_node (add_text_node st (sl line startIdx idx))
            (chars "&quot;")
          parse_inlines_go line f rest2 st1 (idx + 2) (idx + 2)
        else if nxt = '&' then
          let st1 := add_text_node (add_text_node st (sl line startIdx idx))
            (chars "&amp;")
          parse_inlines_go line f rest2 st1 (idx + 2) (idx + 2)
        else if nxt = '>' then
          let st1 := add_text_node (add_text_node st (sl line startIdx idx))
            (chars "&gt;")
          parse_inlines_go line f rest2 st1 (idx + 2) (idx + 2)
        else if nxt = '<' then
          let st1 := add_text_node (add_text_node st (sl line startIdx idx))
            (chars "&lt;")
          parse_inlines_go line f rest2 st1 (idx + 2) (idx + 2)
        else parse_inlines_go line f rest st startIdx (idx + 1)
      | [] =>
        -- loop end after this character: the exit emission at `idx + 1`
        if idx + 1 > startIdx then add_text_node st (line.drop startIdx)
        else st
    else parse_inlines_go line f rest st startIdx (idx + 1)

/-- parser.rs `Parser::parse_inlines`. -/
def parse_inlines (st : PState) (line : LC) : PState :=
  parse_inlines_go line (line.length + 1) line st 0 0

/-! ## parser.rs: regex-equivalent line recognisers -/

/-- `^\s*(\-{3,}|={3,})\s*$` (setext header): leading whitespace, a run of at
least three `-` or `=`, trailing whitespace.  Returns the marker char. -/
def setext_capture (l : LC) : Option Char :=
  let r := l.dropWhile isWs
  match r.head? with
  | some c =>
    if c = '-' || c = '=' then
      let run := r.takeWhile (· = c)
      if run.length ≥ 3 && (r.drop run.length).all isWs then some c else none
    else none
  | none => none

/-- `^((\s*\*){3,}|(\s*\-){3,}|(\s*_){3,})\s*$` (thematic break): the
non-whitespace chars are all the same `*`/`-`/`_` and at least three. -/
def thematic_match (l : LC) : Bool :=
  let t := l.filter (fun c => !isWs c)
  t.length ≥ 3 &&
    (t.all (· = '*') || t.all (· = '-') || t.all (· = '_'))

/-- `^\s*(\#{1,6})(\s+(.*?))?(\s+\#*)?\s*$` (ATX header).  The `#` run must
be consumed entirely by group 1 (a following `#` cannot start any later
group), so it must have length 1–6 and be followed by whitespace or the end
of the line.  The lazy group 3 leaves the longest suffix of the form
`\s+#*\s*` (or `\s*`) to the trailing groups; the source then strips the
remaining leading `#`s from it (`trim_start_matches('#')`). -/
def atx_capture (l : LC) : Option (Nat × LC) :=
  let r := l.dropWhile isWs
  let run := r.takeWhile (· = '#')
  if run.length < 1 || run.length > 6 then none
  else
    let rest := r.drop run.length
    match rest.head? with
    | none => some (run.length, [])
    | some c =>
      if !isWs c then none
      else
        let t := rest.dropWhile isWs
        let t1 := (t.reverse.dropWhile isWs).reverse
        let hs := (t1.reverse.takeWhile (· = '#')).reverse
        let beforeHs := t1.take (t1.length - hs.length)
        let endsWs : Bool :=
          match beforeHs.getLast? with
          | some c => isWs c
          | none => false
        let g3 :=
          if hs.length ≥ 1 && endsWs then
            (beforeHs.reverse.dropWhile isWs).reverse
          else t1
        some (run.length, g3.dropWhile (· = '#'))

/-- Is the first char of `l` whitespace? -/
def headIsWs (l : LC) : Bool :=
  match l.head? with
  | some c => isWs c
  | none => false

/-- `^(\s*>\s?)` (blockquote marker): length of the matched prefix. -/
def bq_marker_len (l : LC) : Option Nat :=
  let w := (l.takeWhile isWs).length
  match (l.drop w).head? with
  | some '>' => some (w + 1 + (if headIsWs (l.drop (w + 1)) then 1 else 0))
  | _ => none

/-- `^(\s*)(`{3,}|~{3,})\s*([^\s]*)(.*)$` (fenced-code opener): captures
(indent length, fence run, language token, remainder). -/
def fence_capture (l : LC) : Option (Nat × LC × LC × LC) :=
  let w := l.takeWhile isWs
  let r := l.drop w.length
  match r.head? with
  | some c =>
    if c = bt || c = '~' then
      let run := r.takeWhile (· = c)
      if run.length ≥ 3 then
        let after := r.drop run.length
        let rest2 := after.dropWhile isWs
        let lang := rest2.takeWhile (fun x => !isWs x)
        some (w.length, run, lang, rest2.drop lang.length)
      else none
    else none
  | none => none

/-- `^\s*(`{3,}|~{3,})\s*$` (closing fence), also used on the language token
to reject an open-and-close line. -/
def end_fence_capture (l : LC) : Option LC :=
  let r := l.dropWhile isWs
  match r.head? with
  | some c =>
    if c = bt || c = '~' then
      let run := r.takeWhile (· = c)
      if run.length ≥ 3 && (r.drop run.length).all isWs then some run else none
    else none
  | none => none

/-- The break test of the fenced-code body loop: the line is a closing fence
at least as long as the opener and of the same character. -/
def fence_closes (marker : LC) (l : LC) : Bool :=
  match end_fence_capture l with
  | some em => em.length ≥ marker.length && em.head? = marker.head?
  | none => false

/-! ## parser.rs: raw-HTML line recognisers -/

/-- `\s`, `>`, `/>` or end of line, the tail condition of the tag-open
patterns (`(\s|>|$)` resp. `(\s|/?>|$)`). -/
def tagTail (allowSlash : Bool) (r : LC) : Bool :=
  match r with
  | [] => true
  | '>' :: _ => true
  | '/' :: '>' :: _ => allowSlash
  | c :: _ => isWs c

/-- `^\s*<(?i)(script|pre|style)(\s|>|$)`. -/
def script_pre_style_open (l : LC) : Bool :=
  let r := lowerL (l.dropWhile isWs)
  match r with
  | '<' :: r1 =>
    [chars "script", chars "pre", chars "style"].any fun w =>
      w.isPrefixOf r1 && tagTail false (r1.drop w.length)
  | _ => false

/-- `</(?i)(script|pre|style)>` anywhere in the line. -/
def script_pre_style_close (l : LC) : Bool :=
  let s := lowerL l
  [chars "</script>", chars "</pre>", chars "</style>"].any (hasSub s)

/-- `^\s*<!\-\-`. -/
def comment_open (l : LC) : Bool :=
  (chars "<!--").isPrefixOf (l.dropWhile isWs)

/-- `\-\->` anywhere. -/
def comment_close (l : LC) : Bool := hasSub l (chars "-->")

/-- `^\s*<\?`. -/
def php_open (l : LC) : Bool := (chars "<?").isPrefixOf (l.dropWhile isWs)

/-- `\?>` anywhere. -/
def php_close (l : LC) : Bool := hasSub l (chars "?>")

/-- `^\s*<![A-Z]`. -/
def less_bang_open (l : LC) : Bool :=
  match l.dropWhile isWs with
  | '<' :: '!' :: c :: _ => isUpperCh c
  | _ => false

/-- `>` anywhere. -/
def less_bang_close (l : LC) : Bool := hasSub l (chars ">")

/-- `^\s*<!\[CDATA\[`. -/
def cdata_open (l : LC) : Bool :=
  (chars "<![CDATA[").isPrefixOf (l.dropWhile isWs)

/-- `\]\]>` anywhere. -/
def cdata_close (l : LC) : Bool := hasSub l (chars "]]>")

/-- The fixed allow-list of block-level tag names of `TAG_OPEN_RE`
(`h[1-4]` expanded). -/
def blockTagNames : List LC :=
  [chars "address", chars "article", chars "aside", chars "base",
   chars "basefont", chars "blockquote", chars "body", chars "caption",
   chars "center", chars "col", chars "colgroup", chars "dd",
   chars "details", chars "dialog", chars "dir", chars "div", chars "dl",
   chars "dt", chars "fieldset", chars "figcaption", chars "figure",
   chars "footer", chars "form", chars "frame", chars "frameset",
   chars "h1", chars "h2", chars "h3", chars "h4", chars "head",
   chars "header", chars "hr", chars "html", chars "iframe",
   chars "legend", chars "li", chars "link", chars "main", chars "menu",
   chars "menuitem", chars "nav", chars "noframes", chars "ol",
   chars "optgroup", chars "option", chars "p", chars "param",
   chars "section", chars "source", chars "summary", chars "table",
   chars "tbody", chars "td", chars "tfoot", chars "th", chars "thead",
   chars "title", chars "tr", chars "track", chars "ul"]

/-- `^\s*</?(?i)(address|...|ul)(\s|/?>|$)`. -/
def tag_open (l : LC) : Bool :=
  let r := lowerL (l.dropWhile isWs)
  match r with
  | '<' :: r1 =>
    let r2 := match r1 with
      | '/' :: r2 => r2
      | _ => r1
    blockTagNames.any fun w =>
      w.isPrefixOf r2 && tagTail true (r2.drop w.length)
  | _ => false

def isTagNameCh (c : Char) : Bool :=
  isLowerCh c || isUpperCh c || isDigitCh c || c = '-'

/-- After the tag-name run: the lazy `[^>]*?/?>` can only consume up to the
first `>` of the line, so the match succeeds exactly when a `>` exists and
only whitespace follows it. -/
def customTagTail (r : LC) : Bool :=
  match r.dropWhile (· ≠ '>') with
  | '>' :: tail => tail.all isWs
  | _ => false

/-- `^\s*<[a-zA-Z0-9\-]+[^>]*?/?>\s*$`. -/
def custom_tag_open1 (l : LC) : Bool :=
  match l.dropWhile isWs with
  | '<' :: c :: r => isTagNameCh c && customTagTail (c :: r)
  | _ => false

/-- `^\s*</[a-zA-Z0-9\-]+[^>]*?>\s*$`. -/
def custom_tag_open2 (l : LC) : Bool :=
  match l.dropWhile isWs with
  | '<' :: '/' :: c :: r => isTagNameCh c && customTagTail (c :: r)
  | _ => false

/-- `^\s*$`, the terminator of the two custom-tag categories. -/
def blank_line (l : LC) : Bool := l.all isWs

/-! ## parser.rs: list-line recogniser -/

/-- The marker body of the list regex: `\*`, `+`, `-`, or 1–9 digits or a
single letter followed by `.` or `)`. -/
def list_marker_body (r : LC) : Option LC :=
  match r.head? with
  | some c =>
    if c = '*' || c = '+' || c = '-' then some [c]
    else if isDigitCh c then
      let d := r.takeWhile isDigitCh
      if d.length ≤ 9 then
        match (r.drop d.length).head? with
        | some p => if p = '.' || p = ')' then some (d ++ [p]) else none
        | none => none
      else none
    else if isLowerCh c || isUpperCh c then
      match (r.drop 1).head? with
      | some p => if p = '.' || p = ')' then some [c, p] else none
      | none => none
    else none
  | none => none

/-- `^(\s*(?:\*|\+|\-|(?:(?:[0-9]{1,9}|[a-z]|[A-Z])(?:\.|\)))))` followed by
`(?:(\s{1,4})(.*)|)?$`: captures (group 1 with leading whitespace, the 1–4
whitespace run, the remainder).  After the marker the line must end or
continue with at least one whitespace char. -/
def list_capture (l : LC) : Option (LC × LC × LC) :=
  let w := l.takeWhile isWs
  match list_marker_body (l.drop w.length) with
  | some body =>
    let marker := w ++ body
    let rest := l.drop marker.length
    match rest.head? with
    | none => some (marker, [], [])
    | some c =>
      if isWs c then
        let spAll := rest.takeWhile isWs
        let sp := spAll.take 4
        some (marker, sp, rest.drop sp.length)
      else none
  | none => none

/-! ## parser.rs: block matchers -/

/-- Failure modes of a parse run: the source's panic (reachable only from
the fenced-code indent-stripping loop), or exhausted fuel of the embedding
(never hit by the concrete runs below). -/
inductive PErr where
  | panicked | fuelOut
  deriving DecidableEq, Repr

/-- parser.rs `Parser::try_setext_header`. -/
def try_setext_header (st : PState) (l : LC) : Option PState :=
  match setext_capture l with
  | some mc =>
    let node_idx := find_open_node st
    if (getNode st node_idx).kind = Kind.paragraph then
      let lvl := if mc = '-' then 2 else 1
      let st1 := setNode st node_idx { getNode st node_idx with kind := .header lvl }
      some (close_node st1 node_idx)
    else none
  | none => none

/-- parser.rs `Parser::try_thematic_break`. -/
def try_thematic_break (st : PState) (l : LC) : Option PState :=
  if thematic_match l then
    let (st1, node_idx) := add_node st .thematicBreak
    some (close_node st1 node_idx)
  else none

/-- parser.rs `Parser::try_header`. -/
def try_header (st : PState) (l : LC) : Option PState :=
  match atx_capture l with
  | some (lvl, txt) =>
    let (st1, node_idx) := add_node st (.header lvl)
    some (close_node (parse_inlines st1 txt) node_idx)
  | none => none

/-- The indent-skipping loop of `try_fenced_code` (`for _ in 0..indent`).
The source indexes `chars[char_idx]` before testing bounds, so an
all-whitespace line shorter than `indent` panics: modelled by `none`. -/
def strip_indent_go : Nat → LC → Nat → Option Nat
  | 0, _, i => some i
  | n + 1, line, i =>
    match line.get? i with
    | none => none
    | some ch => if !isWs ch then some i else strip_indent_go n line (i + 1)

/-- The `<`/`>` escaping loop of the fenced-code body: the list of text
nodes emitted for one line.  The second argument is the remaining suffix
`line.drop charIdx` (structural recursion standing in for the source's
`while char_idx < chars.len()`). -/
def code_esc_pieces (line : LC) : LC → Nat → Nat → List LC
  | [], startIdx, charIdx =>
    if charIdx > startIdx then [line.drop startIdx] else []
  | ch :: rest, startIdx, charIdx =>
    if ch = '>' then
      sl line startIdx charIdx :: chars "&gt;" ::
        code_esc_pieces line rest (charIdx + 1) (charIdx + 1)
    else if ch = '<' then
      sl line startIdx charIdx :: chars "&lt;" ::
        code_esc_pieces line rest (charIdx + 1) (charIdx + 1)
    else code_esc_pieces line rest startIdx (charIdx + 1)

/-- Text nodes emitted for one fenced-code body line: indent strip, then
escaping; `none` models the panic. -/
def line_body_pieces (indent : Nat) (line : LC) : Option (List LC) :=
  match strip_indent_go indent line 0 with
  | none => none
  | some k => some (code_esc_pieces line (line.drop k) k k)

/-- Text nodes emitted for the whole fenced-code body, in emission order:
a `"\n"` separator before every line processed with `consumed > 1`, i.e.
before every body line but the first. -/
def code_body_texts (indent : Nat) : List LC → Nat → Option (List LC)
  | [], _ => some []
  | line :: ls, consumed =>
    match line_body_pieces indent line with
    | none => none
    | some ps =>
      match code_body_texts indent ls (consumed + 1) with
      | none => none
      | some ts => some ((if consumed > 1 then [[nl]] else []) ++ ps ++ ts)

/-- parser.rs `Parser::try_fenced_code` on the current line `l` and the
following lines `rest`.  The source's single loop both detects the closing
fence and emits body text nodes; here the body is the longest prefix of
`rest` without a closing fence, and the text nodes are emitted in the same
order.  Consumed count: 1 (opener) + body + 1 (`consumed += 1` after the
loop). -/
def try_fenced_code (st : PState) (l : LC) (rest : List LC) :
    Except PErr (Option (PState × Nat)) :=
  match fence_capture l with
  | none => .ok none
  | some (indent, marker, lang_str, rem) =>
    if (end_fence_capture lang_str).isSome then .ok none
    else if marker.head? = some bt && (lang_str.contains bt || rem.contains bt) then
      .ok none
    else
      let lang := if lang_str.isEmpty then none else some lang_str
      let (st1, node) := add_node st (.code lang)
      let body := rest.takeWhile (fun x => !fence_closes marker x)
      match code_body_texts indent body 1 with
      | none => .error .panicked
      | some ts =>
        .ok (some (close_node (ts.foldl add_text_node st1) node, body.length + 2))

/-- The line loop of `try_raw_html`: text nodes emitted (each appended line
followed by a `"\n"` node) and the loop's final `consumed`.  On the line
matching the close pattern the loop appends that line's text too unless the
category is a custom/blank-terminated one, and breaks without incrementing
`consumed`. -/
def raw_html_texts_go (is_custom : Bool) (closeRe : LC → Bool) :
    List LC → List LC × Nat
  | [] => ([], 0)
  | line :: rest =>
    if closeRe line then
      ((if is_custom then [] else [line, [nl]]), 0)
    else
      let (ts, c) := raw_html_texts_go is_custom closeRe rest
      (line :: [nl] :: ts, c + 1)

/-- parser.rs `Parser::try_raw_html` on the current line `l` and following
lines `rest` (the loop starts at the current line itself). -/
def try_raw_html (st : PState) (l : LC) (rest : List LC) :
    Option (PState × Nat) :=
  let opener : Option (Bool × (LC → Bool)) :=
    if script_pre_style_open l then some (false, script_pre_style_close)
    else if comment_open l then some (false, comment_close)
    else if php_open l then some (false, php_close)
    else if less_bang_open l then some (false, less_bang_close)
    else if cdata_open l then some (false, cdata_close)
    else if tag_open l then some (true, blank_line)
    else if custom_tag_open1 l || custom_tag_open2 l then
      -- Custom tag does not break paragraphs.
      if (getNode st (find_open_node st)).kind = Kind.paragraph then none
      else some (true, blank_line)
    else none
  match opener with
  | none => none
  | some (is_custom, closeRe) =>
    let (st1, node) := add_node st .rawHtml
    let (ts, c) := raw_html_texts_go is_custom closeRe (l :: rest)
    some (close_node (ts.foldl add_text_node st1) node, c + 1)

/-- The line-collecting loop of `try_blockquote`: stripped sub-lines and
consumed count. -/
def bq_collect : List LC → List LC × Nat
  | [] => ([], 0)
  | line :: rest =>
    match bq_marker_len line with
    | some m =>
      let (s, c) := bq_collect rest
      (line.drop m :: s, c + 1)
    | none => ([], 0)

/-- parser.rs `Parser::try_blockquote`, parameterised by the recursive
re-entry `rec` into `parse_lines` on the stripped sub-lines. -/
def try_blockquote (rec : PState → List LC → Except PErr PState)
    (st : PState) (rs : List LC) : Except PErr (Option (PState × Nat)) :=
  let (sub, consumed) := bq_collect rs
  if consumed > 0 then
    let (st1, node_idx) := add_node st .blockquote
    match rec st1 sub with
    | .error e => .error e
    | .ok st2 => .ok (some (close_node st2 node_idx, consumed))
  else .ok none

/-- The attachment test of `find_parent_list` on the node at `i`: it is an
open-chain List node whose descriptor tolerates the new marker/indent. -/
def list_matches (st : PState) (i : Nat) (to_marker after_marker : Nat)
    (marker : Marker) (marker_close : MarkerClose) : Bool :=
  match (getNode st i).kind with
  | .list data =>
    data.dist_to_marker ≤ to_marker &&
      (after_marker = 0 || data.dist_after_marker ≤ after_marker) &&
      to_marker ≤ data.dist_to_marker + data.dist_after_marker &&
      data.marker = marker && data.close = marker_close
  | _ => false

/-- parser.rs `Parser::find_parent_list`, fueled like `find_open_node`:
descends the open chain first (deepest match wins), then tests the current
child. -/
def find_parent_list_f : Nat → PState → Nat → Nat → Nat → Marker →
    MarkerClose → Option Nat
  | 0, _, _, _, _, _, _ => none
  | f + 1, st, idx, to_marker, after_marker, marker, marker_close =>
    match (getNode st idx).blocks.getLast? with
    | some i =>
      if (getNode st i).isOpen then
        match find_parent_list_f f st i to_marker after_marker marker
            marker_close with
        | some ret => some ret
        | none =>
          if list_matches st i to_marker after_marker marker marker_close
          then some i else none
      else none
    | none => none

/-- The strict descendants of `idx` along the open chain (each step: the
last child, provided it is open), with the same fuel discipline as
`find_parent_list_f`. -/
def open_chain_desc : Nat → PState → Nat → List Nat
  | 0, _, _ => []
  | f + 1, st, idx =>
    match (getNode st idx).blocks.getLast? with
    | some i =>
      if (getNode st i).isOpen then i :: open_chain_desc f st i else []
    | none => []

/-- The `map_or_else` of `try_list`: reuse the matching open list node, or
create a new List node from the new item's descriptor. -/
def resolve_list_parent (st : PState) (d : ListData) : PState × Nat :=
  match find_parent_list_f st.length st 0 d.dist_to_marker d.dist_after_marker
      d.marker d.close with
  | some i => (st, i)
  | none => add_node st (.list d)

/-- The line-collecting loop of `try_list` (`consumed` starts at 1 for the
marker line; continuation lines are pushed unstripped). -/
def list_collect (indent : Nat) (start_blank : Bool) :
    List LC → Nat → List LC × Nat
  | [], consumed => ([], consumed)
  | line :: rest, consumed =>
    let spLen := (line.takeWhile isWs).length
    if spLen < indent && spLen ≠ line.length then ([], consumed)
    else if (trimL line).isEmpty && start_blank && consumed = 1 then
      ([], consumed)
    else
      let (s, c) := list_collect indent start_blank rest (consumed + 1)
      (line :: s, c)

/-- parser.rs `Parser::try_list` on the current line `l` and following lines
`rest`, parameterised by the recursive re-entry `rec` into `parse_lines`. -/
def try_list (rec : PState → List LC → Except PErr PState)
    (st : PState) (l : LC) (rest : List LC) :
    Except PErr (Option (PState × Nat)) :=
  match list_capture l with
  | none => .ok none
  | some (marker, sp, rem) =>
    let indent_blank : Nat × Bool :=
      if (trimL rem).isEmpty then (marker.length, true)
      else (marker.length + sp.length, false)
    let indent := indent_blank.1
    let start_blank := indent_blank.2
    let mk := parse_marker (trimL marker)
    let marker_kind := mk.1
    let marker_close := mk.2.1
    let marker_start := mk.2.2
    -- Blank list marker can not interrupt a paragraph.
    let open_node := find_open_node st
    if start_blank && (getNode st open_node).kind = Kind.paragraph then .ok none
    else
      let collected := list_collect indent start_blank rest 1
      let sub_lines := l.drop indent :: collected.1
      let consumed := collected.2
      -- Ordered markers must start with 1 to break a paragraph.
      if (getNode st open_node).kind = Kind.paragraph &&
         (marker_kind = Marker.numeric || marker_kind = Marker.upperAlpha ||
          marker_kind = Marker.lowerAlpha) && marker_start ≠ 1
      then .ok none
      else
        let resolved := resolve_list_parent st
          ⟨marker.length, sp.length, marker_kind, marker_close, marker_start⟩
        let added := add_node_to_parent resolved.1 resolved.2 .listElement
        match rec added.1 sub_lines with
        | .error e => .error e
        | .ok st3 => .ok (some (close_node st3 added.2, consumed))

/-! ## parser.rs: `parse_lines` (the line dispatcher) and `parse` -/

/-- One iteration of the `parse_lines` dispatch loop at cursor `idx`:
returns the new arena and the cursor advance.  Branch order is the
source's: blank line, setext, thematic break, ATX header, raw HTML, fenced
code, blockquote, list, paragraph/text fallback. -/
def dispatch_once (rec : PState → List LC → Except PErr PState)
    (st : PState) (lines : List LC) (idx : Nat) :
    Except PErr (PState × Nat) :=
  let l := lines.getD idx []
  if (trimL l).isEmpty then
    let node_idx := find_open_node st
    let st1 :=
      if is_closed_by_hardbreak (getNode st node_idx) then close_node st node_idx
      else st
    .ok (st1, 1)
  else
    match try_setext_header st l with
    | some st1 => .ok (st1, 1)
    | none =>
      match try_thematic_break st l with
      | some st1 => .ok (st1, 1)
      | none =>
        match try_header st l with
        | some st1 => .ok (st1, 1)
        | none =>
          match try_raw_html st l (lines.drop (idx + 1)) with
          | some (st1, c) => .ok (st1, c)
          | none =>
            match try_fenced_code st l (lines.drop (idx + 1)) with
            | .error e => .error e
            | .ok (some (st1, c)) => .ok (st1, c)
            | .ok none =>
              match try_blockquote rec st (lines.drop idx) with
              | .error e => .error e
              | .ok (some (st1, c)) => .ok (st1, c)
              | .ok none =>
                match try_list rec st l (lines.drop (idx + 1)) with
                | .error e => .error e
                | .ok (some (st1, c)) => .ok (st1, c)
                | .ok none =>
                  let node_idx := find_open_node st
                  let st1 :=
                    if (getNode st node_idx).kind = Kind.paragraph then
                      add_text_node st [nl]
                    else (add_node st .paragraph).1
                  .ok (parse_inlines st1 (trimL l), 1)

/-- parser.rs `Parser::parse_lines`, fueled: one fuel unit per dispatcher
iteration and per nested `parse_lines` entry. -/
def parse_lines_f : Nat → PState → List LC → Nat → Except PErr PState
  | 0, _, _, _ => .error .fuelOut
  | f + 1, st, lines, idx =>
    if idx < lines.length then
      match dispatch_once (fun st' ls => parse_lines_f f st' ls 0) st lines idx with
      | .error e => .error e
      | .ok (st', c) => parse_lines_f f st' lines (idx + c)
    else .ok st

/-- Rust `str::lines`: split at `\n`, no trailing empty line for a trailing
terminator. -/
def splitOnNl : LC → List LC
  | [] => [[]]
  | c :: r =>
    match splitOnNl r with
    | [] => [[c]]
    | h :: t => if c = nl then [] :: h :: t else (c :: h) :: t

/-- Strip one trailing `\r` (a `\r\n` terminator). -/
def stripCr (l : LC) : LC :=
  if l.getLast? = some (Char.ofNat 13) then l.dropLast else l

/-- Rust `str::lines` on the whole buffer. -/
def linesOf (s : LC) : List LC :=
  if s.isEmpty then []
  else
    let ps := splitOnNl s
    if s.getLast? = some nl then (ps.dropLast).map stripCr
    else (ps.dropLast.map stripCr) ++ [ps.getLastD []]

/-- Fuel for a whole parse run: generous bound checked concretely by every
evaluation below. -/
def fuelOf (ls : List LC) : Nat :=
  (ls.map List.length).sum + 2 * ls.length + 8

/-- The node-building pass of `Parser::parse`: `parse_lines` over
`buf.lines()` from the initial one-Document arena. -/
def parse_top (buf : LC) : Except PErr PState :=
  let ls := linesOf buf
  parse_lines_f (fuelOf ls) initState ls 0

/-- Is the Document root still open after parsing `buf`? -/
def rootOpenAfter (buf : LC) : Option Bool :=
  match parse_top buf with
  | .ok st => some (getNode st 0).isOpen
  | .error _ => none

/-! ## The immutable tree (`Block`) and parser.rs `to_block`/`build_doc`

parser.rs constructs `Block::Text`, `Block::Inline`, `Block::RawHtml` and a
`Block::Code` holding blocks; the `tree.rs` snapshot in `src/` predates
these constructors (it does not compile against parser.rs), so the `Block`
shape here is taken from `Parser::to_block`, the authoritative constructor
site. -/

inductive Block where
  | blockquote (bs : List Block)
  | code (lang : Option LC) (bs : List Block)
  | header (lvl : Nat) (bs : List Block)
  | list (m : Marker) (start : Nat) (bs : List Block)
  | listElement (bs : List Block)
  | paragraph (bs : List Block)
  | thematicBreak
  | text (s : LC)
  | inlineEl (tag : LC) (bs : List Block)
  | rawHtml (bs : List Block)
  deriving Repr

/-- parser.rs `Parser::to_block`/`convert_blocks`, fueled through child
indices.  The source panics on a Document node (`to_block` is never called
on it from `build_doc`); that unreachable arm is `none`. -/
def to_block_f : Nat → PState → Nat → Option Block
  | 0, _, _ => none
  | f + 1, st, idx =>
    let conv : Option (List Block) :=
      (getNode st idx).blocks.mapM (to_block_f f st)
    match (getNode st idx).kind with
    | .doc => none
    | .code lang => conv.map (Block.code lang)
    | .blockquote => conv.map Block.blockquote
    | .header lvl => conv.map (Block.header lvl)
    | .list data => conv.map (Block.list data.marker data.start_value)
    | .listElement => conv.map Block.listElement
    | .paragraph => conv.map Block.paragraph
    | .thematicBreak => some Block.thematicBreak
    | .text txt => some (Block.text txt)
    | .inlineEl el => conv.map (Block.inlineEl el)
    | .rawHtml => conv.map Block.rawHtml

/-- parser.rs `Parser::build_doc`: convert the root's children. -/
def build_doc (st : PState) : Option (List Block) :=
  (getNode st 0).blocks.mapM (to_block_f st.length st)

/-- lib.rs `to_ast`, as the block list of the returned `Doc` (`none` on the
panic / fuel failure modes of the embedding). -/
def parseDocBlocks (buf : LC) : Option (List Block) :=
  match parse_top buf with
  | .ok st => build_doc st
  | .error _ => none

/-! ## Renderer

Modelled from the spec: the `tree.rs` renderer that matches parser.rs (the
`Display` impl handling `Block::Text`, `Block::Inline`, `Block::RawHtml`
and block-children `Block::Code`) is missing from `src/` — the `tree.rs`
present there is a superseded snapshot that parser.rs does not compile
against.  The per-kind serialisation below follows spec §4.5 and the
concrete scenarios of §8: Text → verbatim stored slice, InlineSpan →
`<tag>…</tag>`, Paragraph → `<p>…</p>`, Header → `<hN>…</hN>`,
ThematicBreak → `<hr />`, Blockquote / List / ListElement with a newline
after the opening tag, Code → `<pre><code[ class='language-X']>` with a
trailing newline when the content is non-empty, RawHtml → passthrough. -/

/-- Decimal digits of a number for tag levels and `start` attributes. -/
def natDigits (n : Nat) : LC := (toString n).toList

mutual

def renderBlock : Block → LC
  | .text s => s
  | .inlineEl tag bs =>
    '<' :: tag ++ '>' :: renderBlocks bs ++ '<' :: '/' :: tag ++ ['>']
  | .paragraph bs => chars "<p>" ++ renderBlocks bs ++ chars "</p>" ++ [nl]
  | .header lvl bs =>
    chars "<h" ++ natDigits lvl ++ '>' :: renderBlocks bs ++
      chars "</h" ++ natDigits lvl ++ ['>', nl]
  | .thematicBreak => chars "<hr />" ++ [nl]
  | .blockquote bs =>
    chars "<blockquote>" ++ nl :: renderBlocks bs ++
      chars "</blockquote>" ++ [nl]
  | .code lang bs =>
    let content := renderBlocks bs
    chars "<pre><code" ++
      (match lang with
       | some x => chars " class=" ++ sq :: chars "language-" ++ x ++ [sq]
       | none => []) ++
      '>' :: content ++ (if content.isEmpty then [] else [nl]) ++
      chars "</code></pre>" ++ [nl]
  | .list m start bs =>
    let tagAttr : LC × LC :=
      match m with
      | .bullet => (chars "ul", [])
      | .dash => (chars "ul", chars " style=" ++ sq ::
          chars "list-style-type:circle" ++ [sq])
      | .plus => (chars "ul", chars " style=" ++ sq ::
          chars "list-style-type:square" ++ [sq])
      | .upperAlpha => (chars "ol", chars " type=" ++ sq :: 'A' :: [sq])
      | .lowerAlpha => (chars "ol", chars " type=" ++ sq :: 'a' :: [sq])
      | .upperRoman => (chars "ol", chars " type=" ++ sq :: 'I' :: [sq])
      | .lowerRoman => (chars "ol", chars " type=" ++ sq :: 'i' :: [sq])
      | .numeric => (chars "ol", [])
    let attr := tagAttr.2 ++
      (if start ≠ 1 then chars " start=" ++ sq :: natDigits start ++ [sq]
       else [])
    '<' :: tagAttr.1 ++ attr ++ '>' :: nl :: renderBlocks bs ++
      '<' :: '/' :: tagAttr.1 ++ ['>', nl]
  | .listElement bs =>
    chars "<li>" ++ nl :: renderBlocks bs ++ chars "</li>" ++ [nl]
  | .rawHtml bs => renderBlocks bs

def renderBlocks : List Block → LC
  | [] => []
  | b :: bs => renderBlock b ++ renderBlocks bs

end

/-- tree.rs `Doc::fmt` (present in `src/` and era-independent for the empty
document): one `writeln!` per top-level block. -/
def renderDoc (bs : List Block) : LC :=
  match bs with
  | [] => []
  | b :: rest => renderBlock b ++ nl :: renderDoc rest

/-- lib.rs `to_html` (`none` on the panic / fuel failure modes of the
embedding). -/
def to_html_e (buf : LC) : Option LC :=
  match parse_top buf with
  | .ok st => (build_doc st).map renderDoc
  | .error _ => none

/-! ## Spec-side definitions (used only to state refinement/corrected
claims; written from the spec's words, not from the source) -/

/-- The close-delimiter condition exactly as claim C5 / spec §4.4 words it:
left neighbour present and non-whitespace (and, for `_`/`*` only, different
from the marker character), AND right neighbour absent or whitespace. -/
def spec_inline_close (ch : Char) (left right : Option Char) : Bool :=
  (match left with
   | some lc => !isWs lc && (ch = bt || lc ≠ ch)
   | none => false) &&
  (match right with
   | some rc => isWs rc
   | none => true)

/-- Spec §4.3 fenced-code body stripping: remove up to `indent` leading
whitespace characters, stopping at the first non-whitespace. -/
def spec_strip (indent : Nat) (l : LC) : LC :=
  l.drop (min indent (l.takeWhile isWs).length)

/-- Spec §4.3 fenced-code escaping: `<` → `&lt;`, `>` → `&gt;`, all other
characters verbatim. -/
def esc_repl (l : LC) : LC :=
  l.flatMap fun c =>
    if c = '<' then chars "&lt;" else if c = '>' then chars "&gt;" else [c]

/-- Spec §8 code fidelity: the content of a fenced code block is the body
lines, each indent-stripped and entity-escaped, joined by single
newlines. -/
def spec_code_content (indent : Nat) (body : List LC) : LC :=
  match body with
  | [] => []
  | l :: ls =>
    esc_repl (spec_strip indent l) ++
      ls.flatMap (fun x => nl :: esc_repl (spec_strip indent x))

/-! ## Concrete fixtures for witnesses -/

/-- A trivial `parse_lines` re-entry for instantiating matcher theorems. -/
def recId : PState → List LC → Except PErr PState := fun st _ => .ok st

/-- An arena whose open chain ends in a Paragraph. -/
def paraState : PState := [⟨.doc, true, [1]⟩, ⟨.paragraph, true, []⟩]

/-- An arena whose open chain ends in a List node with descriptor
(dist_to_marker 2, dist_after_marker 1, Dash, no closing punctuation). -/
def listState : PState :=
  [⟨.doc, true, [1]⟩,
   ⟨.list ⟨2, 1, Marker.dash, MarkerClose.none, 1⟩, true, []⟩]

end MarkSpec

/-! # Theorems -/

namespace MarkSpec

/-- C1 — corrected to a code bug: the fenced-code body indent-stripping
loop of `try_fenced_code` indexes `chars[char_idx]` before any bounds
check, so an indented fence followed by an all-whitespace line shorter than
the indent panics; on the input `" ```\n\n"` the public entry points fail
instead of returning a result. -/
theorem c1_fenced_code_panics :
    parse_top (chars " ```\n\n") = Except.error PErr.panicked ∧
    to_html_e (chars " ```\n\n") = none ∧
    strip_indent_go 1 [] 0 = none := ⟨by rfl, by rfl, by rfl⟩

/-- C3 — the Document root can be closed: on the single paragraph line
`"a_ b_"` the second `_` is classified as an inline close after the
paragraph was already closed by the first one, and
`close_node (find_open_node ..)` then closes node 0, contradicting the
claimed invariant (and the source's own comment on `find_open_node`). -/
theorem c3_root_closed : rootOpenAfter (chars "a_ b_") = some false := by rfl

/-- C4 counterexample — a bullet list-marker line does not always
interrupt an open paragraph: after the paragraph line `"x"`, the bare
bullet line `"-"` (a list-marker line with blank content) is rejected by
`try_list` and becomes paragraph text; no List node is created. -/
theorem c4_counterexample :
    parseDocBlocks (chars "x\n-") =
      some [Block.paragraph
        [Block.text (chars "x"), Block.text [nl], Block.text (chars "-")]] ∧
    try_list recId paraState (chars "-") [] = .ok none := ⟨by rfl, by rfl⟩

/-- C5 counterexample — `is_inline_close` accepts a close delimiter
whose right neighbour is present and non-whitespace (`a_b`), which the
claimed condition (right neighbour absent or whitespace) rejects. -/
theorem c5_counterexample :
    is_inline_close '_' (some 'a') (some 'b') = true ∧
    spec_inline_close '_' (some 'a') (some 'b') = false := ⟨by rfl, by rfl⟩

/-- C7 counterexample — for an HTML-comment raw-HTML block the text of
the line containing the closing `-->` IS appended to the RawHtml node's
content (the source appends for every non-custom category), contrary to
the claim that only the `script|pre|style` case appends. -/
theorem c7_counterexample :
    parseDocBlocks (chars "<!--x-->") =
      some [Block.rawHtml
        [Block.text (chars "<!--x-->"), Block.text [nl]]] ∧
    raw_html_texts_go false comment_close [chars "<!--x-->"] =
      ([chars "<!--x-->", [nl]], 0) := ⟨by rfl, by rfl⟩

/-- C9 — the renderer emits every Text node's stored slice verbatim
(no whitespace normalisation), and paragraph line-joining appears only as
the explicit `"\n"` text node inserted by the `parse_lines` fallback:
end-to-end, `"a  b\nc"` keeps its double space. -/
theorem c9_text_verbatim :
    (∀ s : LC, renderBlock (.text s) = s) ∧
    parseDocBlocks (chars "a  b\nc") =
      some [Block.paragraph
        [Block.text (chars "a  b"), Block.text [nl], Block.text (chars "c")]] ∧
    renderBlock (Block.paragraph
        [Block.text (chars "a  b"), Block.text [nl], Block.text (chars "c")]) =
      chars "<p>a  b\nc</p>" ++ [nl] :=
  ⟨fun _ => rfl, by rfl, by rfl⟩

/-- C10 — on the empty input `to_ast` yields a Document with no blocks
and `to_html` yields the empty string. -/
theorem c10_empty_input :
    parseDocBlocks (chars "") = some [] ∧ to_html_e (chars "") = some [] :=
  ⟨by rfl, by rfl⟩

/-- C5 amended — a `_`, `*` or backtick is classified close exactly when
the left neighbour exists, is non-whitespace, and differs from the marker
character (the differs-check applies to the backtick as well); the right
neighbour is never consulted. -/
theorem c5_amended_close_rule :
    ∀ (ch lc : Char) (right : Option Char),
      is_inline_close ch none right = false ∧
      is_inline_close ch (some lc) right =
        (!isWs lc && !(decide (ch = lc))) := by
  intro ch lc right
  refine ⟨rfl, ?_⟩
  by_cases h1 : isWs lc <;> by_cases h2 : ch = lc <;>
    cases right <;> simp [is_inline_close, h1, h2]

/-! ### Progress lemmas for the dispatcher (C2) -/

theorem list_collect_consumed_ge (indent : Nat) (sb : Bool) :
    ∀ (rs : List LC) (n : Nat), n ≤ (list_collect indent sb rs n).2 := by
  intro rs
  induction rs with
  | nil => intro n; simp [list_collect]
  | cons l rest ih =>
    intro n
    simp only [list_collect]
    split
    · exact Nat.le_refl n
    · split
      · exact Nat.le_refl n
      · exact Nat.le_trans (Nat.le_succ n) (ih (n + 1))

theorem try_list_consumed (rec : PState → List LC → Except PErr PState)
    (st : PState) (l : LC) (rest : List LC) (st' : PState) (c : Nat)
    (h : try_list rec st l rest = .ok (some (st', c))) : 1 ≤ c := by
  simp only [try_list] at h
  repeat' split at h
  all_goals simp at h
  all_goals obtain ⟨-, hc⟩ := h
  all_goals subst hc
  all_goals exact list_collect_consumed_ge _ _ _ 1

theorem try_raw_html_consumed (st : PState) (l : LC) (rest : List LC)
    (st' : PState) (c : Nat) (h : try_raw_html st l rest = some (st', c)) :
    1 ≤ c := by
  simp only [try_raw_html] at h
  repeat' split at h
  all_goals simp at h
  all_goals obtain ⟨-, hc⟩ := h
  all_goals omega

theorem try_fenced_code_consumed (st : PState) (l : LC) (rest : List LC)
    (st' : PState) (c : Nat)
    (h : try_fenced_code st l rest = .ok (some (st', c))) : 1 ≤ c := by
  simp only [try_fenced_code] at h
  repeat' split at h
  all_goals simp at h
  all_goals obtain ⟨-, hc⟩ := h
  all_goals omega

theorem try_blockquote_consumed
    (rec : PState → List LC → Except PErr PState) (st : PState)
    (rs : List LC) (st' : PState) (c : Nat)
    (h : try_blockquote rec st rs = .ok (some (st', c))) : 1 ≤ c := by
  simp only [try_blockquote] at h
  repeat' split at h
  all_goals simp at h
  all_goals obtain ⟨-, hc⟩ := h
  all_goals omega

/-- C2 — every iteration of the `parse_lines` dispatch loop advances the
cursor by at least 1: the blank-line and fallback branches return exactly 1,
the one-line matchers return 1, and every multi-line matcher that fires
returns a consumed count ≥ 1, so lines are consumed exactly once, none
skipped or processed twice. -/
theorem c2_dispatch_progress
    (rec : PState → List LC → Except PErr PState) (st : PState)
    (lines : List LC) (idx : Nat) (st' : PState) (c : Nat)
    (_hidx : idx < lines.length)
    (h : dispatch_once rec st lines idx = .ok (st', c)) : 1 ≤ c := by
  simp only [dispatch_once] at h
  repeat' split at h
  all_goals simp at h
  all_goals obtain ⟨-, hc⟩ := h
  all_goals subst hc
  all_goals
    first
    | omega
    | (rename_i heq
       first
       | exact try_raw_html_consumed _ _ _ _ _ heq
       | exact try_fenced_code_consumed _ _ _ _ _ heq
       | exact try_blockquote_consumed _ _ _ _ _ heq
       | exact try_list_consumed _ _ _ _ _ _ heq)

/-- Witness for C2 at a concrete dispatcher step. -/
theorem c2_dispatch_progress_witness : 0 < 1 ∧ 1 ≤ 1 :=
  ⟨by decide,
   c2_dispatch_progress recId initState [chars "x"] 0 _ 1 (by decide)
     (by rfl)⟩

/-- C7 amended — when the raw-HTML loop meets the first line matching
the close pattern, it appends that line's text (followed by a newline node)
for every non-custom category — `script|pre|style`, comment, processing
instruction, declaration and CDATA alike — and appends nothing for the
custom/blank-terminated categories; the loop stops there with
`consumed = pre.length`, which `try_raw_html` then increments, so the
terminator line is counted as consumed in all cases. -/
theorem c7_amended_terminator :
    ∀ (custom : Bool) (closeRe : LC → Bool) (pre : List LC) (t : LC)
      (post : List LC),
      (∀ x ∈ pre, closeRe x = false) → closeRe t = true →
      raw_html_texts_go custom closeRe (pre ++ t :: post) =
        (pre.flatMap (fun x => [x, [nl]]) ++
          (if custom then [] else [t, [nl]]), pre.length) := by
  intro custom closeRe pre
  induction pre with
  | nil =>
    intro t post _ hct
    simp [raw_html_texts_go, hct]
  | cons p ps ih =>
    intro t post hpre hct
    have hp : closeRe p = false := hpre p (List.mem_cons_self _ _)
    simp only [List.cons_append, raw_html_texts_go, hp, Bool.false_eq_true,
      if_false, List.append_eq]
    rw [ih t post (fun x hx => hpre x (List.mem_cons_of_mem _ hx)) hct]
    simp

/-- Witness for C7 amended on a concrete comment block. -/
theorem c7_amended_terminator_witness :
    raw_html_texts_go false comment_close
        [chars "a", chars "-->", chars "b"] =
      ([chars "a", [nl], chars "-->", [nl]], 1) := by
  have h := c7_amended_terminator false comment_close [chars "a"]
    (chars "-->") [chars "b"] (by decide) (by decide)
  simpa using h

/-- C4 amended — when the open node is a Paragraph, `try_list` declines
(returning to the paragraph fallback) exactly when the line is not a
list-marker line, or the item's first-line content after the marker is
blank (blank markers of every kind, bullets included, never interrupt), or
the marker kind is ordered (numeric, upper/lower alpha) with decoded start
value ≠ 1.  Equivalently: a list-marker line interrupts the paragraph iff
its content is non-blank and (for ordered markers) its start value is 1;
non-blank bullet markers always interrupt. -/
theorem c4_amended_interrupt
    (rec : PState → List LC → Except PErr PState) (st : PState) (l : LC)
    (rest : List LC)
    (hpara : (getNode st (find_open_node st)).kind = Kind.paragraph) :
    (try_list rec st l rest = .ok none ↔
      (list_capture l = none ∨
       ∃ m sp rem, list_capture l = some (m, sp, rem) ∧
         ((trimL rem).isEmpty = true ∨
          (((parse_marker (trimL m)).1 = Marker.numeric ∨
            (parse_marker (trimL m)).1 = Marker.upperAlpha ∨
            (parse_marker (trimL m)).1 = Marker.lowerAlpha) ∧
           (parse_marker (trimL m)).2.2 ≠ 1)))) := by
  cases hc : list_capture l with
  | none => simp [try_list, hc]
  | some cap =>
    obtain ⟨m, sp, rem⟩ := cap
    by_cases hb : (trimL rem).isEmpty
    · constructor
      · intro _
        exact Or.inr ⟨m, sp, rem, rfl, Or.inl hb⟩
      · intro _
        simp [try_list, hc, hb, hpara]
    · by_cases hord : ((parse_marker (trimL m)).1 = Marker.numeric ∨
          (parse_marker (trimL m)).1 = Marker.upperAlpha ∨
          (parse_marker (trimL m)).1 = Marker.lowerAlpha) ∧
          (parse_marker (trimL m)).2.2 ≠ 1
      · constructor
        · intro _
          exact Or.inr ⟨m, sp, rem, rfl, Or.inr hord⟩
        · intro _
          obtain ⟨h1, h2⟩ := hord
          rcases h1 with h1 | h1 | h1 <;> simp [try_list, hc, hb, hpara, h1, h2]
      · constructor
        · intro hL
          exfalso
          simp only [try_list, hc] at hL
          rw [if_neg hb] at hL
          rw [if_neg (by simp)] at hL
          rw [if_neg (by
            simp [hpara]
            intro ho
            by_contra hne
            exact absurd ⟨by tauto, hne⟩ hord)] at hL
          split at hL <;> simp at hL
        · intro hR
          exfalso
          rcases hR with h1 | ⟨m', sp', rem', he, hcond⟩
          · exact Option.noConfusion h1
          · simp only [Option.some.injEq, Prod.mk.injEq] at he
            obtain ⟨rfl, rfl, rfl⟩ := he
            rcases hcond with hcb | hco
            · exact hb hcb
            · exact hord hco

/-- Witness for C4 amended: an ordered marker with start value 2 declines
to interrupt an open paragraph. -/
theorem c4_amended_interrupt_witness :
    try_list recId paraState (chars "2. a") [] = .ok none :=
  (c4_amended_interrupt recId paraState (chars "2. a") [] (by rfl)).mpr
    (Or.inr ⟨chars "2.", chars " ", chars "a", by rfl,
      Or.inr ⟨Or.inl (by rfl), by decide⟩⟩)

/-! ### Code-fidelity lemmas (C6) -/

theorem strip_indent_go_spec :
    ∀ (n : Nat) (l : LC) (i : Nat),
      strip_indent_go n l i =
        (if n ≤ ((l.drop i).takeWhile isWs).length then some (i + n)
         else if i + ((l.drop i).takeWhile isWs).length < l.length then
           some (i + ((l.drop i).takeWhile isWs).length)
         else none) := by
  intro n
  induction n with
  | zero => intro l i; simp [strip_indent_go]
  | succ n ih =>
    intro l i
    cases hg : l.get? i with
    | none =>
      have hge : l.length ≤ i := by
        rwa [List.get?_eq_none] at hg
      have hdrop : l.drop i = [] := List.drop_eq_nil_of_le hge
      simp only [strip_indent_go, hg, hdrop, List.takeWhile_nil,
        List.length_nil, Nat.add_zero]
      rw [if_neg (by omega), if_neg (by omega)]
    | some c =>
      have hi : i < l.length := by
        by_contra hcon
        rw [List.get?_eq_none.mpr (by omega)] at hg
        exact Option.noConfusion hg
      have hdrop : l.drop i = c :: l.drop (i + 1) := by
        rw [List.drop_eq_getElem_cons hi]
        have h1 : l[i]? = some c := by
          rw [← List.get?_eq_getElem?]; exact hg
        rw [List.getElem?_eq_getElem hi] at h1
        rw [Option.some.injEq] at h1
        rw [h1]
      by_cases hws : isWs c
      · have hlen : ((l.drop i).takeWhile isWs).length =
            ((l.drop (i + 1)).takeWhile isWs).length + 1 := by
          rw [hdrop]
          simp [List.takeWhile_cons, hws]
        simp only [strip_indent_go, hg, hws, Bool.not_true, if_false,
          Bool.false_eq_true]
        rw [ih l (i + 1), hlen]
        by_cases h1 : n ≤ ((l.drop (i + 1)).takeWhile isWs).length
        · rw [if_pos h1,
            if_pos (show n + 1 ≤ ((l.drop (i + 1)).takeWhile isWs).length + 1
              by omega)]
          exact congrArg some (by omega)
        · rw [if_neg h1,
            if_neg (show ¬(n + 1 ≤ ((l.drop (i + 1)).takeWhile isWs).length + 1)
              by omega)]
          by_cases h2 :
              i + 1 + ((l.drop (i + 1)).takeWhile isWs).length < l.length
          · rw [if_pos h2,
              if_pos (show i + (((l.drop (i + 1)).takeWhile isWs).length + 1) <
                l.length by omega)]
            exact congrArg some (by omega)
          · rw [if_neg h2,
              if_neg (show ¬(i + (((l.drop (i + 1)).takeWhile isWs).length + 1) <
                l.length) by omega)]
      · have hlen : ((l.drop i).takeWhile isWs).length = 0 := by
          rw [hdrop]
          simp [List.takeWhile_cons, hws]
        simp only [strip_indent_go, hg, hws]
        rw [hlen]
        simp [hi]

theorem code_esc_pieces_join :
    ∀ (r : LC) (l : LC) (s i : Nat), l.drop i = r → s ≤ i →
      (code_esc_pieces l r s i).flatten = sl l s i ++ esc_repl r := by
  intro r
  induction r with
  | nil =>
    intro l s i hr hs
    have hlen : l.length ≤ i := List.drop_eq_nil_iff.mp hr
    simp only [code_esc_pieces, esc_repl, List.flatMap_nil, List.append_nil]
    by_cases h : i > s
    · simp only [h, if_true, List.flatten]
      rw [sl, List.take_of_length_le (by simp [List.length_drop]; omega)]
      simp
    · have : i = s := by omega
      subst this
      simp [sl]
  | cons c r' ih =>
    intro l s i hr hs
    have hi : i < l.length := by
      have := congrArg List.length hr
      simp [List.length_drop] at this
      omega
    have hdrop1 : l.drop (i + 1) = r' := by
      rw [← List.tail_drop, hr]
      rfl
    have hget : l[i]? = some c := by
      have h0 : (l.drop i)[0]? = l[i]? := by
        simp [List.getElem?_drop]
      rw [hr] at h0
      simpa using h0.symm
    have hslstep : sl l s (i + 1) = sl l s i ++ [c] := by
      have hq : (l.drop s)[i - s]? = some c := by
        rw [List.getElem?_drop, show s + (i - s) = i by omega]
        exact hget
      rw [sl, show i + 1 - s = (i - s) + 1 by omega, List.take_succ]
      rw [hq]
      rfl
    by_cases hgt : c = '>'
    · subst hgt
      rw [show code_esc_pieces l ('>' :: r') s i =
          sl l s i :: chars "&gt;" :: code_esc_pieces l r' (i + 1) (i + 1) from
        by simp [code_esc_pieces]]
      rw [List.flatten_cons, List.flatten_cons,
        ih l (i + 1) (i + 1) hdrop1 (Nat.le_refl _)]
      simp [sl, esc_repl]
    · by_cases hlt : c = '<'
      · subst hlt
        rw [show code_esc_pieces l ('<' :: r') s i =
            sl l s i :: chars "&lt;" :: code_esc_pieces l r' (i + 1) (i + 1)
          from by simp [code_esc_pieces]]
        rw [List.flatten_cons, List.flatten_cons,
          ih l (i + 1) (i + 1) hdrop1 (Nat.le_refl _)]
        simp [sl, esc_repl]
      · rw [show code_esc_pieces l (c :: r') s i =
            code_esc_pieces l r' s (i + 1) from
          by simp [code_esc_pieces, hgt, hlt]]
        rw [ih l s (i + 1) hdrop1 (by omega), hslstep]
        simp [esc_repl, hgt, hlt]

theorem line_body_pieces_join (indent : Nat) (l : LC) (ps : List LC)
    (h : line_body_pieces indent l = some ps) :
    ps.flatten = esc_repl (spec_strip indent l) := by
  simp only [line_body_pieces] at h
  cases hk : strip_indent_go indent l 0 with
  | none => rw [hk] at h; exact Option.noConfusion h
  | some k =>
    rw [hk] at h
    simp only [Option.some.injEq] at h
    subst h
    rw [strip_indent_go_spec] at hk
    simp only [List.drop_zero, Nat.zero_add] at hk
    have hkval : k = min indent ((l.takeWhile isWs).length) := by
      by_cases h1 : indent ≤ (l.takeWhile isWs).length
      · rw [if_pos h1] at hk
        simp at hk
        omega
      · rw [if_neg h1] at hk
        by_cases h2 : (l.takeWhile isWs).length < l.length
        · rw [if_pos h2] at hk
          simp at hk
          omega
        · rw [if_neg h2] at hk
          exact Option.noConfusion hk
    rw [code_esc_pieces_join (l.drop k) l k k rfl (Nat.le_refl _)]
    rw [sl]
    simp [spec_strip, hkval]

theorem code_body_texts_join_tail (indent : Nat) :
    ∀ (ls : List LC) (c : Nat) (ts : List LC), 2 ≤ c →
      code_body_texts indent ls c = some ts →
      ts.flatten = ls.flatMap (fun x => nl :: esc_repl (spec_strip indent x)) := by
  intro ls
  induction ls with
  | nil =>
    intro c ts _ h
    simp only [code_body_texts, Option.some.injEq] at h
    subst h
    simp
  | cons l rest ih =>
    intro c ts hc h
    simp only [code_body_texts] at h
    cases hps : line_body_pieces indent l with
    | none => rw [hps] at h; exact Option.noConfusion h
    | some ps =>
      rw [hps] at h
      cases hts : code_body_texts indent rest (c + 1) with
      | none => rw [hts] at h; exact Option.noConfusion h
      | some ts' =>
        rw [hts] at h
        simp only [Option.some.injEq] at h
        subst h
        rw [if_pos (by omega)]
        simp only [List.flatten_append, List.flatten_cons, List.flatMap_cons]
        rw [line_body_pieces_join indent l ps hps,
          ih (c + 1) ts' (by omega) hts]
        simp

theorem renderBlocks_map_text :
    ∀ ts : List LC, renderBlocks (ts.map Block.text) = ts.flatten := by
  intro ts
  induction ts with
  | nil => rfl
  | cons t rest ih => simp [renderBlocks, renderBlock, ih]

/-- C6 — spec-modelled renderer: the text nodes emitted for a fenced
code block's body (in emission order, as rendered verbatim by the Text arm
of the renderer) reproduce the body lines byte-for-byte except for
stripping up to the opening fence's indent and replacing `<`/`>` by
entities, joined by single newlines; no whitespace is collapsed and no
other characters are inserted. -/
theorem c6_code_fidelity (indent : Nat) (body : List LC) (ts : List LC)
    (h : code_body_texts indent body 1 = some ts) :
    renderBlocks (ts.map Block.text) = spec_code_content indent body := by
  rw [renderBlocks_map_text]
  cases body with
  | nil =>
    simp only [code_body_texts, Option.some.injEq] at h
    subst h
    rfl
  | cons l rest =>
    simp only [code_body_texts] at h
    cases hps : line_body_pieces indent l with
    | none => rw [hps] at h; exact Option.noConfusion h
    | some ps =>
      rw [hps] at h
      cases hts : code_body_texts indent rest 2 with
      | none => rw [hts] at h; exact Option.noConfusion h
      | some ts' =>
        rw [hts] at h
        simp only [Option.some.injEq] at h
        subst h
        rw [if_neg (by omega)]
        simp only [List.nil_append, List.flatten_append, spec_code_content]
        rw [line_body_pieces_join indent l ps hps,
          code_body_texts_join_tail indent rest 2 ts' (by omega) hts]

/-- Witness for C6 on a concrete indented body with an escape. -/
theorem c6_code_fidelity_witness :
    renderBlocks (((code_body_texts 1 [chars " <a", chars "x"] 1).getD
      []).map Block.text) = spec_code_content 1 [chars " <a", chars "x"] :=
  c6_code_fidelity 1 [chars " <a", chars "x"] _ (by rfl)

/-! ### List-attachment lemmas (C8) -/

theorem find_parent_list_f_sound :
    ∀ (f : Nat) (st : PState) (idx to_marker after_marker : Nat)
      (m : Marker) (mc : MarkerClose) (i : Nat),
      find_parent_list_f f st idx to_marker after_marker m mc = some i →
      list_matches st i to_marker after_marker m mc = true ∧
        i ∈ open_chain_desc f st idx := by
  intro f
  induction f with
  | zero => intro st idx tm am m mc i h; exact Option.noConfusion h
  | succ f ih =>
    intro st idx tm am m mc i h
    simp only [find_parent_list_f] at h
    cases hlast : (getNode st idx).blocks.getLast? with
    | none => rw [hlast] at h; exact Option.noConfusion h
    | some j =>
      rw [hlast] at h
      dsimp only [] at h
      by_cases hopen : (getNode st j).isOpen
      · rw [if_pos hopen] at h
        cases hrec : find_parent_list_f f st j tm am m mc with
        | some r =>
          rw [hrec] at h
          simp only [Option.some.injEq] at h
          subst h
          obtain ⟨hm, hmem⟩ := ih st j tm am m mc _ hrec
          refine ⟨hm, ?_⟩
          simp only [open_chain_desc, hlast, if_pos hopen]
          exact List.mem_cons_of_mem _ hmem
        | none =>
          rw [hrec] at h
          by_cases hm : list_matches st j tm am m mc
          · rw [if_pos hm] at h
            simp only [Option.some.injEq] at h
            subst h
            refine ⟨hm, ?_⟩
            simp only [open_chain_desc, hlast, if_pos hopen]
            exact List.mem_cons_self _ _
          · rw [if_neg hm] at h
            exact Option.noConfusion h
      · rw [if_neg hopen] at h
        exact Option.noConfusion h

theorem find_parent_list_f_complete :
    ∀ (f : Nat) (st : PState) (idx to_marker after_marker : Nat)
      (m : Marker) (mc : MarkerClose),
      (∃ i ∈ open_chain_desc f st idx,
        list_matches st i to_marker after_marker m mc = true) →
      (find_parent_list_f f st idx to_marker after_marker m mc).isSome =
        true := by
  intro f
  induction f with
  | zero => intro st idx tm am m mc h; simp [open_chain_desc] at h
  | succ f ih =>
    intro st idx tm am m mc h
    simp only [open_chain_desc] at h
    cases hlast : (getNode st idx).blocks.getLast? with
    | none => rw [hlast] at h; simp at h
    | some j =>
      rw [hlast] at h
      dsimp only [] at h
      by_cases hopen : (getNode st j).isOpen
      · rw [if_pos hopen] at h
        simp only [find_parent_list_f, hlast, if_pos hopen]
        cases hrec : find_parent_list_f f st j tm am m mc with
        | some r => simp
        | none =>
          rcases h with ⟨i, hmem, hm⟩
          rcases List.mem_cons.mp hmem with rfl | hmem'
          · simp [hm]
          · exact absurd (ih st j tm am m mc ⟨i, hmem', hm⟩)
              (by simp [hrec])
      · rw [if_neg hopen] at h
        simp at h

/-- C8 — a new list item is attached to an existing open List node on
the open chain if and only if some open-chain List's descriptor satisfies
the tolerance window (`existing.dist_to_marker ≤ new marker length`,
`new marker length ≤ existing.dist_to_marker + existing.dist_after_marker`,
and — when the new after-marker run is non-zero —
`existing.dist_after_marker ≤ new after-marker length`) with matching
marker kind and closing style; `find_parent_list` returns such a node, and
otherwise `try_list` creates a new List node from the new item's
descriptor. -/
theorem c8_list_attachment :
    (∀ (f : Nat) (st : PState) (idx to_marker after_marker : Nat)
       (m : Marker) (mc : MarkerClose),
       ((find_parent_list_f f st idx to_marker after_marker m mc).isSome =
          true ↔
        ∃ i ∈ open_chain_desc f st idx,
          list_matches st i to_marker after_marker m mc = true)) ∧
    (∀ (f : Nat) (st : PState) (idx to_marker after_marker : Nat)
       (m : Marker) (mc : MarkerClose) (i : Nat),
       find_parent_list_f f st idx to_marker after_marker m mc = some i →
       list_matches st i to_marker after_marker m mc = true) ∧
    (∀ (st : PState) (d : ListData) (i : Nat),
       find_parent_list_f st.length st 0 d.dist_to_marker
         d.dist_after_marker d.marker d.close = some i →
       resolve_list_parent st d = (st, i)) ∧
    (∀ (st : PState) (d : ListData),
       find_parent_list_f st.length st 0 d.dist_to_marker
         d.dist_after_marker d.marker d.close = none →
       resolve_list_parent st d = add_node st (.list d)) := by
  refine ⟨?_, ?_, ?_, ?_⟩
  · intro f st idx tm am m mc
    constructor
    · intro h
      obtain ⟨i, hi⟩ := Option.isSome_iff_exists.mp h
      obtain ⟨hm, hmem⟩ := find_parent_list_f_sound f st idx tm am m mc i hi
      exact ⟨i, hmem, hm⟩
    · exact find_parent_list_f_complete f st idx tm am m mc
  · intro f st idx tm am m mc i h
    exact (find_parent_list_f_sound f st idx tm am m mc i h).1
  · intro st d i h
    simp [resolve_list_parent, h]
  · intro st d h
    simp [resolve_list_parent, h]

/-- Witness for C8: a matching open List node is reused. -/
theorem c8_list_attachment_witness :
    resolve_list_parent listState ⟨2, 1, Marker.dash, MarkerClose.none, 1⟩ =
      (listState, 1) :=
  c8_list_attachment.2.2.1 listState
    ⟨2, 1, Marker.dash, MarkerClose.none, 1⟩ 1 (by rfl)

end MarkSpec
